import Mathlib

/-!
Verification of the Review Orchestration Engine specification for the
`personal-code-reviewer` repository (multi-agent AI code review system:
Chunker, Dispatcher, Aggregator, Job Ledger, Patch Engine, plus a React
client).  The backend engine itself ships only as documentation in this
repository (docs/architecture.md, the agent-design and API-contract
documents), so the engine components are modelled from the specification;
the React client code (useReviewStatus, reviewApi) is embedded from the
TypeScript source.
-/

/-! ## Data model -/

/-- Severity levels of a finding, as in the Finding schema
(`severity ∈ {critical, high, medium, low, info}`). -/
inductive Severity where
  | critical
  | high
  | medium
  | low
  | info
deriving DecidableEq, Repr

/-- Modelled from the spec: the severity rank used for deduplication and
sorting, `critical > high > medium > low > info` (§4.4). -/
def severityRank : Severity → Nat
  | .critical => 4
  | .high => 3
  | .medium => 2
  | .low => 1
  | .info => 0

/-- The Finding record of the data model (§3):
`{id, agent_name, severity, category, title, description, file_path,
start_line, end_line, suggestion, code_snippet}`. -/
structure Finding where
  id : String
  agent_name : String
  severity : Severity
  category : String
  title : String
  description : String
  file_path : String
  start_line : Nat
  end_line : Nat
  suggestion : String
  code_snippet : String
deriving DecidableEq, Repr

/-! ## Aggregator (§4.4), modelled from the spec -/

/-- Modelled from the spec: two findings are duplicates if they share the
same `file_path`, their `[start_line, end_line]` ranges overlap by at least
one line, and their `category` matches (§4.4). -/
def isDuplicate (a b : Finding) : Bool :=
  a.file_path == b.file_path && a.category == b.category &&
    decide (max a.start_line b.start_line ≤ min a.end_line b.end_line)

/-- Modelled from the spec: when duplicates are detected, keep the one with
the higher severity rank, breaking ties by preferring the earlier-collected
finding (§4.4). -/
def keepBetter (kept incoming : Finding) : Finding :=
  if severityRank kept.severity < severityRank incoming.severity then incoming else kept

/-- Modelled from the spec: fold one incoming finding into the list of
findings kept so far, replacing the first kept duplicate (insertion order is
preserved, making the tie-break deterministic). -/
def dedupInsert : List Finding → Finding → List Finding
  | [], f => [f]
  | g :: gs, f => if isDuplicate g f then keepBetter g f :: gs else g :: dedupInsert gs f

/-- Modelled from the spec: deduplicate raw findings in insertion order. -/
def dedup (rawFindings : List Finding) : List Finding :=
  rawFindings.foldl dedupInsert []

/-- Modelled from the spec: the report ordering — primary key severity rank
descending, secondary key `file_path` ascending, tertiary key `start_line`
ascending (§4.4). -/
def findingOrder (a b : Finding) : Prop :=
  severityRank b.severity < severityRank a.severity ∨
    (severityRank a.severity = severityRank b.severity ∧
      (a.file_path < b.file_path ∨
        (a.file_path = b.file_path ∧ a.start_line ≤ b.start_line)))

instance : DecidableRel findingOrder := fun a b => by
  unfold findingOrder
  exact inferInstance

instance : IsTotal Finding findingOrder := by
  constructor
  intro a b
  unfold findingOrder
  rcases Nat.lt_trichotomy (severityRank a.severity) (severityRank b.severity) with h | h | h
  · right; left; exact h
  · rcases lt_trichotomy a.file_path b.file_path with hp | hp | hp
    · left; right; exact ⟨h, Or.inl hp⟩
    · rcases Nat.le_total a.start_line b.start_line with hs | hs
      · left; right; exact ⟨h, Or.inr ⟨hp, hs⟩⟩
      · right; right; exact ⟨h.symm, Or.inr ⟨hp.symm, hs⟩⟩
    · right; right; exact ⟨h.symm, Or.inl hp⟩
  · left; left; exact h

instance : IsTrans Finding findingOrder := by
  constructor
  intro a b c hab hbc
  unfold findingOrder at hab hbc ⊢
  rcases hab with h1 | ⟨h1, p1⟩
  · rcases hbc with h2 | ⟨h2, _⟩
    · left; omega
    · left; omega
  · rcases hbc with h2 | ⟨h2, p2⟩
    · left; omega
    · right
      refine ⟨h1.trans h2, ?_⟩
      rcases p1 with hp1 | ⟨hp1, hs1⟩
      · rcases p2 with hp2 | ⟨hp2, _⟩
        · left; exact hp1.trans hp2
        · left; exact hp2 ▸ hp1
      · rcases p2 with hp2 | ⟨hp2, hs2⟩
        · left; exact hp1 ▸ hp2
        · right; exact ⟨hp1.trans hp2, hs1.trans hs2⟩

/-- Modelled from the spec: `merge(rawFindings) -> Finding[]` — deduplicate,
then sort by the report ordering (§4.4). -/
def merge (rawFindings : List Finding) : List Finding :=
  List.insertionSort findingOrder (dedup rawFindings)

/-- The five-bucket severity tally of the review report
(`severity_counts{critical,high,medium,low,info}`, §6). -/
structure SeverityCounts where
  critical : Nat
  high : Nat
  medium : Nat
  low : Nat
  info : Nat
deriving DecidableEq, Repr

/-- Number of findings in the list with the given severity. -/
def countSeverity (s : Severity) (fs : List Finding) : Nat :=
  (fs.filter (fun f => f.severity == s)).length

/-- Modelled from the spec: `severity_counts`, a tally over the five
severity buckets of the merged findings (§4.4). -/
def severity_counts (fs : List Finding) : SeverityCounts :=
  ⟨countSeverity .critical fs, countSeverity .high fs, countSeverity .medium fs,
    countSeverity .low fs, countSeverity .info fs⟩

/-- Sum of the five bucket values of a tally. -/
def SeverityCounts.total (c : SeverityCounts) : Nat :=
  c.critical + c.high + c.medium + c.low + c.info

/-- `total_findings` of a report is the length of its findings list (§6). -/
def total_findings (fs : List Finding) : Nat := fs.length

theorem severity_counts_total_eq_length (fs : List Finding) :
    (severity_counts fs).total = fs.length := by
  induction fs with
  | nil => rfl
  | cons f fs ih =>
    cases hs : f.severity <;>
      simp only [severity_counts, SeverityCounts.total, countSeverity, List.filter_cons,
        beq_iff_eq, hs, reduceCtorEq, if_true, if_false, List.length_cons, ite_true,
        ite_false, reduceIte] at ih ⊢ <;>
      omega

/-! ## Chunker (§4.1), modelled from the spec -/

/-- A source file handed to the Chunker: path, text content as lines, the
detected language, and whether the external file-kind check flags it as
binary/non-text (`UnsupportedFileKind`, skipped rather than aborting). -/
structure SourceFile where
  path : String
  lines : List String
  language : String
  isBinary : Bool
deriving DecidableEq, Repr

/-- The CodeChunk record of the data model (§3):
`{id, file_path, start_line, end_line, content, language}`; identity is
`(file_path, start_line, end_line)` and content is kept as whole lines. -/
structure CodeChunk where
  id : String
  file_path : String
  start_line : Nat
  end_line : Nat
  content : List String
  language : String
deriving DecidableEq, Repr

/-- Line count of a chunk (its content is a list of whole lines). -/
def CodeChunk.lineCount (c : CodeChunk) : Nat := c.content.length

/-- Modelled from the spec: split a file's lines into consecutive groups of
at most `budget` lines, slicing strictly by line count and never splitting a
line (§4.1).  `cur` holds the lines of the group being built, in reverse. -/
def chunkGroups (budget : Nat) : List String → List String → List (List String)
  | [], [] => []
  | a :: as, [] => [(a :: as).reverse]
  | cur, l :: ls =>
    if cur.length + 1 = budget then (l :: cur).reverse :: chunkGroups budget [] ls
    else chunkGroups budget (l :: cur) ls

/-- Turn the ordered line groups of one file into CodeChunks with 1-based
start/end line numbers. -/
def numberGroups (path lang : String) (start : Nat) : List (List String) → List CodeChunk
  | [] => []
  | g :: gs =>
    { id := path ++ "#" ++ toString start, file_path := path, start_line := start,
      end_line := start + g.length - 1, content := g, language := lang } ::
      numberGroups path lang (start + g.length) gs

/-- Modelled from the spec: chunk one file; binary/non-text files are
skipped (`UnsupportedFileKind`), text files are partitioned into chunks of
at most `budget` lines (§4.1). -/
def chunkFile (budget : Nat) (f : SourceFile) : List CodeChunk :=
  if f.isBinary then []
  else numberGroups f.path f.language 1 (chunkGroups budget [] f.lines)

/-- Modelled from the spec: the Chunker's ordered chunk sequence over a file
set (§4.1). -/
def chunkFiles (budget : Nat) (files : List SourceFile) : List CodeChunk :=
  (files.map (chunkFile budget)).flatten

/-- A file of `n` identical lines, for the chunking scenario. -/
def plainFile (path : String) (n : Nat) : SourceFile :=
  { path := path, lines := List.replicate n "line", language := "python", isBinary := false }

/-- The scenario file set: three files of 50, 250 and 10 lines. -/
def demoFiles : List SourceFile :=
  [plainFile "a.py" 50, plainFile "b.py" 250, plainFile "c.py" 10]

/-- A sample low-severity finding used as concrete witness input. -/
def demoLow : Finding :=
  { id := "f1", agent_name := "security_agent", severity := .low,
    category := "security", title := "possible injection",
    description := "input concatenated into query",
    file_path := "src/db.py", start_line := 3, end_line := 6,
    suggestion := "use parameters", code_snippet := "query = ..." }

/-- A sample high-severity finding overlapping `demoLow` in the same file
and category. -/
def demoHigh : Finding :=
  { id := "f2", agent_name := "security_agent", severity := .high,
    category := "security", title := "SQL injection",
    description := "user input reaches the query",
    file_path := "src/db.py", start_line := 5, end_line := 7,
    suggestion := "parameterized queries", code_snippet := "query = ..." }

/-! ## Job Ledger state machine (§4.5), modelled from the spec -/

/-- Review job status (§3): `status ∈ {pending, processing, completed,
failed}`. -/
inductive JobStatus where
  | pending
  | processing
  | completed
  | failed
deriving DecidableEq, Repr

/-- Modelled from the spec: the legal transitions of the Job Ledger state
machine (§4.5) — `pending → processing`, `processing → completed`,
`processing → failed`; terminal states do not transition further. -/
def jobStep : JobStatus → JobStatus → Bool
  | .pending, .processing => true
  | .processing, .completed => true
  | .processing, .failed => true
  | _, _ => false

/-- A status sequence is a valid job history when each consecutive pair is a
legal Job Ledger transition. -/
def validTrace : List JobStatus → Bool
  | [] => true
  | [_] => true
  | s :: t :: r => jobStep s t && validTrace (t :: r)

/-! ## Dispatcher (§4.3), modelled from the spec -/

/-- A dispatch unit: one (chunk, agent variant) pair of the Cartesian
product, together with the oracle giving the success/failure of its k-th
call attempt (initial call, then retries). -/
structure DispatchUnit where
  chunkId : String
  variant : String
  attemptOk : Nat → Bool

/-- Display name of a unit, used in the degraded-units message. -/
def unitName (u : DispatchUnit) : String := u.chunkId ++ "/" ++ u.variant

/-- Modelled from the spec: a unit succeeds if the initial call or one of up
to `retries` retried calls succeeds; otherwise the unit has retried out and
is recorded as degraded (§4.3, default 2 retries). -/
def unitSucceeds (retries : Nat) (u : DispatchUnit) : Bool :=
  (List.range (retries + 1)).any u.attemptOk

/-- Modelled from the spec: the degraded units of a dispatch run, in unit
order. -/
def degradedUnits (retries : Nat) (units : List DispatchUnit) : List String :=
  (units.filter (fun u => !unitSucceeds retries u)).map unitName

/-- Modelled from the spec: the job's final status after all units resolve —
`completed` unless ALL units failed, in which case `failed` (§4.3). -/
def dispatchStatus (retries : Nat) (units : List DispatchUnit) : JobStatus :=
  if units.any (unitSucceeds retries) then .completed else .failed

/-- Modelled from the spec: the degraded units are surfaced through the
final message field if non-empty (§4.3). -/
def dispatchMessage (retries : Nat) (units : List DispatchUnit) : Option (List String) :=
  if (degradedUnits retries units).isEmpty then none else some (degradedUnits retries units)

/-- The three agent variants of the Agent Port (§4.2). -/
def variantNames : List String := ["code_analyzer", "security_agent", "optimization_agent"]

/-- Five chunk identities for the 5 × 3 dispatch scenario. -/
def chunkNames : List String := ["chunk1", "chunk2", "chunk3", "chunk4", "chunk5"]

/-- A scenario unit: every call attempt of `chunk1/security_agent` and of
`chunk3/optimization_agent` times out; every other unit succeeds at once. -/
def demoUnit (c v : String) : DispatchUnit :=
  { chunkId := c, variant := v,
    attemptOk := fun _ =>
      !((c == "chunk1" && v == "security_agent") ||
        (c == "chunk3" && v == "optimization_agent")) }

/-- The 15 scenario units: 5 chunks × 3 agent variants. -/
def demoUnits : List DispatchUnit :=
  (chunkNames.map (fun c => variantNames.map (fun v => demoUnit c v))).flatten

/-! ## Patch Engine apply (§4.6), modelled from the spec -/

/-- Modelled from the spec: stage every patch of the batch to a temporary
location; `writeOk` tells whether writing the given target path succeeds.
Staging yields the staged batch only when every write succeeded, otherwise
nothing is committed (§4.6). -/
def stageAll (writeOk : String → Bool) : List (String × String) → Option (List (String × String))
  | [] => some []
  | p :: ps => if writeOk p.1 then (stageAll writeOk ps).map (p :: ·) else none

/-- Modelled from the spec: the atomic rename/commit step — move every
staged file onto its working-copy path (§4.6). -/
def commitAll (workingCopy : String → String) : List (String × String) → String → String
  | [], path => workingCopy path
  | p :: ps, path => if path = p.1 then p.2 else commitAll workingCopy ps path

/-- Modelled from the spec: `apply(jobId, patches) -> success`, all-or-
nothing per invocation — commit happens only if the whole batch staged
(§4.6).  Returns the success flag and the resulting working copy. -/
def applyPatches (workingCopy : String → String) (writeOk : String → Bool)
    (patches : List (String × String)) : Bool × (String → String) :=
  match stageAll writeOk patches with
  | none => (false, workingCopy)
  | some staged => (true, commitAll workingCopy staged)

/-- A two-file working copy for the apply scenario. -/
def demoWorkingCopy : String → String :=
  fun path => if path = "a.py" then "old a" else if path = "b.py" then "old b" else ""

/-- In the apply scenario the write to `b.py` fails and every other write
succeeds. -/
def demoWriteOk : String → Bool := fun path => path != "b.py"

/-- The apply scenario batch: patches for `a.py` and `b.py`. -/
def demoPatches : List (String × String) := [("a.py", "new a"), ("b.py", "new b")]

/-! ## Patch Engine line diff (§4.6), modelled from the spec -/

/-- A line-diff entry type (§3): `type ∈ {added, removed, unchanged}`. -/
inductive DiffType where
  | added
  | removed
  | unchanged
deriving DecidableEq, Repr

/-- A line-diff entry (§3): `{line_number, type, content}`. -/
structure LineDiff where
  line_number : Nat
  type : DiffType
  content : String
deriving DecidableEq, Repr

/-- Modelled from the spec: a longest-common-subsequence of two line lists
(`line_diff` is computed via a standard LCS line-based diff, §4.6).  `fuel`
bounds the recursion; `lcsLines` supplies enough fuel. -/
def lcsFuel : Nat → List String → List String → List String
  | 0, _, _ => []
  | _ + 1, [], _ => []
  | _ + 1, _ :: _, [] => []
  | fuel + 1, a :: as, b :: bs =>
    if a = b then a :: lcsFuel fuel as bs
    else
      let l1 := lcsFuel fuel (a :: as) bs
      let l2 := lcsFuel fuel as (b :: bs)
      if l1.length < l2.length then l2 else l1

/-- The LCS of two line lists, with fuel covering both lists. -/
def lcsLines (as bs : List String) : List String :=
  lcsFuel (as.length + bs.length) as bs

/-- Modelled from the spec: walk the original and modified lines against a
common subsequence, emitting `removed` entries for original lines before the
next common line, `added` entries for modified lines before it, and one
`unchanged` entry per common line (§4.6). -/
def diffCore : Nat → List String → List String → List String → List (DiffType × String)
  | 0, original, modified, _ =>
    original.map (fun l => (.removed, l)) ++ modified.map (fun l => (.added, l))
  | _ + 1, original, modified, [] =>
    original.map (fun l => (.removed, l)) ++ modified.map (fun l => (.added, l))
  | _ + 1, [], modified, _ :: _ => modified.map (fun l => (.added, l))
  | _ + 1, o :: os, [], _ :: _ => (o :: os).map (fun l => (.removed, l))
  | fuel + 1, o :: os, m :: ms, c :: cs =>
    if o = c then
      if m = c then (.unchanged, o) :: diffCore fuel os ms cs
      else (.added, m) :: diffCore fuel (o :: os) ms (c :: cs)
    else (.removed, o) :: diffCore fuel os (m :: ms) (c :: cs)

/-- Assign line numbers to diff entries: removed lines carry their 1-based
position in the original text, added and unchanged lines their position in
the modified text. -/
def numberDiff (oldN newN : Nat) : List (DiffType × String) → List LineDiff
  | [] => []
  | (.removed, s) :: rest => ⟨oldN, .removed, s⟩ :: numberDiff (oldN + 1) newN rest
  | (.added, s) :: rest => ⟨newN, .added, s⟩ :: numberDiff oldN (newN + 1) rest
  | (.unchanged, s) :: rest => ⟨newN, .unchanged, s⟩ :: numberDiff (oldN + 1) (newN + 1) rest

/-- Modelled from the spec: the Patch Engine's `line_diff` between the
original and modified text of one file (§4.6). -/
def computeLineDiff (original modified : List String) : List LineDiff :=
  numberDiff 1 1
    (diffCore (original.length + modified.length) original modified
      (lcsLines original modified))

/-- The Patch record of the data model (§3):
`{file_path, original_text, modified_text, line_diff[]}`, text held as
lines. -/
structure Patch where
  file_path : String
  original_text : List String
  modified_text : List String
  line_diff : List LineDiff
deriving DecidableEq, Repr

/-- Modelled from the spec: `generate` produces one Patch per file from the
collaborator-provided modified content, computing `line_diff` between
original and modified text (§4.6). -/
def generatePatch (path : String) (original modified : List String) : Patch :=
  ⟨path, original, modified, computeLineDiff original modified⟩

/-- Apply an untyped diff sequence to the original lines: `added` emits the
entry's content, `removed` consumes one original line, `unchanged` passes
one original line through. -/
def applyCore : List String → List (DiffType × String) → List String
  | original, [] => original
  | original, (.added, s) :: rest => s :: applyCore original rest
  | original, (.removed, _) :: rest => applyCore original.tail rest
  | [], (.unchanged, _) :: rest => applyCore [] rest
  | o :: os, (.unchanged, _) :: rest => o :: applyCore os rest

/-- Apply a `line_diff` sequence, in order, to the original lines. -/
def applyLineDiff (original : List String) (d : List LineDiff) : List String :=
  applyCore original (d.map (fun e => (e.type, e.content)))

/-! ## Client, embedded from the TypeScript source -/

/-- From `src/frontend/src/hooks/useReviewStatus.ts`: the polling effect —
`if (status !== 'pending' && status !== 'processing') return` schedules
nothing, otherwise exactly one `setTimeout(poll, 5000)` is installed (the
same guard re-runs inside `poll` after each fetch, and the effect's cleanup
clears the pending timer whenever the status changes).  The result is the
delay of the single further fetch scheduled after a fetched status, if
any. -/
def pollDelayAfter (status : String) : Option Nat :=
  if status != "pending" && status != "processing" then none
  else some 5000

/-- From `src/frontend/src/api/reviewApi.ts`: `startReview` posts to
`/review/`. -/
def startReviewPath : String := "/review/"

/-- From `src/frontend/src/api/reviewApi.ts`: the request body of
`startReview` is `{ repo_id: repoId }`, as field/value pairs. -/
def startReviewBody (repoId : String) : List (String × String) :=
  [("repo_id", repoId)]

/-! ## Claim theorems for the Aggregator -/

/-- C1: for two raw findings with the same `file_path`, overlapping line
ranges and the same `category`, `merge` returns exactly one finding of the
pair — the one with the higher severity rank, ties broken by insertion order
(the earlier-collected finding wins). -/
theorem merge_duplicate_pair (a b : Finding)
    (hpath : a.file_path = b.file_path)
    (hcat : a.category = b.category)
    (hover : max a.start_line b.start_line ≤ min a.end_line b.end_line) :
    merge [a, b] =
      [if severityRank a.severity < severityRank b.severity then b else a] := by
  have hdup : isDuplicate a b = true := by
    simp [isDuplicate, hpath, hcat, hover]
  simp [merge, dedup, dedupInsert, hdup, keepBetter, List.insertionSort]

/-- C1 witness: two overlapping security findings in the same file, the
second more severe, merge to the single higher-severity finding. -/
theorem merge_duplicate_pair_witness :
    merge [demoLow, demoHigh] =
      [if severityRank demoLow.severity < severityRank demoHigh.severity
        then demoHigh else demoLow] :=
  merge_duplicate_pair demoLow demoHigh rfl rfl (by decide)

/-- C2: `merge` is deterministic (the same input yields the identical
ordered sequence) and its output is sorted with primary key severity rank
descending, secondary key `file_path` ascending, tertiary key `start_line`
ascending. -/
theorem merge_deterministic_and_sorted (rawFindings : List Finding) :
    merge rawFindings = merge rawFindings ∧
      List.Sorted findingOrder (merge rawFindings) :=
  ⟨rfl, List.sorted_insertionSort findingOrder (dedup rawFindings)⟩

/-- C8: the report's `severity_counts` over the five severity buckets of the
merged findings sums exactly to `total_findings`. -/
theorem severity_counts_sum_total (rawFindings : List Finding) :
    (severity_counts (merge rawFindings)).total = total_findings (merge rawFindings) :=
  severity_counts_total_eq_length (merge rawFindings)

/-! ## Chunker lemmas and claim theorem -/

theorem chunkGroups_cons (budget : Nat) (cur : List String) (l : String) (ls : List String) :
    chunkGroups budget cur (l :: ls) =
      if cur.length + 1 = budget then (l :: cur).reverse :: chunkGroups budget [] ls
      else chunkGroups budget (l :: cur) ls := by
  cases cur <;> rfl

theorem chunkGroups_flatten (budget : Nat) :
    ∀ (ls cur : List String), (chunkGroups budget cur ls).flatten = cur.reverse ++ ls := by
  intro ls
  induction ls with
  | nil =>
    intro cur
    cases cur <;> simp [chunkGroups]
  | cons l ls ih =>
    intro cur
    rw [chunkGroups_cons]
    split <;> simp [ih, List.append_assoc]

theorem chunkGroups_le (budget : Nat) :
    ∀ (ls cur : List String), cur.length < budget →
      ∀ g ∈ chunkGroups budget cur ls, g.length ≤ budget := by
  intro ls
  induction ls with
  | nil =>
    intro cur hcur g hg
    cases cur with
    | nil => simp [chunkGroups] at hg
    | cons a as =>
      simp only [chunkGroups, List.mem_singleton] at hg
      subst hg
      simp only [List.length_reverse]
      omega
  | cons l ls ih =>
    intro cur hcur g hg
    rw [chunkGroups_cons] at hg
    by_cases h : cur.length + 1 = budget
    · rw [if_pos h] at hg
      rcases List.mem_cons.mp hg with hg | hg
      · subst hg
        simp only [List.length_reverse, List.length_cons]
        omega
      · exact ih [] (by simp only [List.length_nil]; omega) g hg
    · rw [if_neg h] at hg
      refine ih (l :: cur) ?_ g hg
      simp only [List.length_cons]
      omega

theorem numberGroups_map_content (path lang : String) :
    ∀ (gs : List (List String)) (start : Nat),
      (numberGroups path lang start gs).map CodeChunk.content = gs := by
  intro gs
  induction gs with
  | nil => intro start; rfl
  | cons g gs ih => intro start; simp [numberGroups, ih]

theorem numberGroups_map_lineCount (path lang : String) :
    ∀ (gs : List (List String)) (start : Nat),
      (numberGroups path lang start gs).map CodeChunk.lineCount = gs.map List.length := by
  intro gs
  induction gs with
  | nil => intro start; rfl
  | cons g gs ih => intro start; simp [numberGroups, CodeChunk.lineCount, ih]

theorem numberGroups_mem_content (path lang : String) :
    ∀ (gs : List (List String)) (start : Nat) (c : CodeChunk),
      c ∈ numberGroups path lang start gs → c.content ∈ gs := by
  intro gs
  induction gs with
  | nil => intro start c hc; simp [numberGroups] at hc
  | cons g gs ih =>
    intro start c hc
    rw [numberGroups] at hc
    rcases List.mem_cons.mp hc with hc | hc
    · subst hc
      exact List.mem_cons_self _ _
    · exact List.mem_cons_of_mem _ (ih _ c hc)

/-- C3: for a non-skipped text file the Chunker's chunks are a lossless
partition — the chunk contents joined in order are exactly the file's lines
(every line covered exactly once, no line split), the per-file sum of chunk
line counts equals the file's line count, and every chunk is capped at the
line budget; moreover the concrete scenario of three files of 50, 250 and 10
lines with budget 200 yields 4 chunks (≥ 4), none over 200 lines, covering
all 310 lines. -/
theorem chunker_lossless_partition (budget : Nat) (f : SourceFile)
    (hb : 0 < budget) (hf : f.isBinary = false) :
    ((chunkFile budget f).map CodeChunk.content).flatten = f.lines ∧
      ((chunkFile budget f).map CodeChunk.lineCount).sum = f.lines.length ∧
      (∀ c ∈ chunkFile budget f, c.lineCount ≤ budget) ∧
      (4 ≤ (chunkFiles 200 demoFiles).length ∧
        (∀ c ∈ chunkFiles 200 demoFiles, c.lineCount ≤ 200) ∧
        ((chunkFiles 200 demoFiles).map CodeChunk.lineCount).sum = 310) := by
  have hchunk : chunkFile budget f
      = numberGroups f.path f.language 1 (chunkGroups budget [] f.lines) := by
    simp [chunkFile, hf]
  have hcontent : ((chunkFile budget f).map CodeChunk.content).flatten = f.lines := by
    rw [hchunk, numberGroups_map_content, chunkGroups_flatten]
    simp
  refine ⟨hcontent, ?_, ?_, ?_, ?_, ?_⟩
  · rw [hchunk, numberGroups_map_lineCount, ← List.length_flatten, chunkGroups_flatten]
    simp
  · intro c hc
    rw [hchunk] at hc
    have := numberGroups_mem_content f.path f.language _ 1 c hc
    exact chunkGroups_le budget f.lines [] (by simpa using hb) c.content this
  · decide
  · decide
  · decide

/-- C3 witness: the scenario's 250-line file with budget 200 satisfies the
partition and sum properties, and the three-file scenario yields at least 4
chunks covering all 310 lines. -/
theorem chunker_lossless_partition_witness :
    ((chunkFile 200 (plainFile "b.py" 250)).map CodeChunk.content).flatten =
        (plainFile "b.py" 250).lines ∧
      ((chunkFile 200 (plainFile "b.py" 250)).map CodeChunk.lineCount).sum =
        (plainFile "b.py" 250).lines.length ∧
      4 ≤ (chunkFiles 200 demoFiles).length ∧
      ((chunkFiles 200 demoFiles).map CodeChunk.lineCount).sum = 310 :=
  ⟨(chunker_lossless_partition 200 (plainFile "b.py" 250) (by decide) (by decide)).1,
    (chunker_lossless_partition 200 (plainFile "b.py" 250) (by decide) (by decide)).2.1,
    (chunker_lossless_partition 200 (plainFile "b.py" 250) (by decide) (by decide)).2.2.2.1,
    (chunker_lossless_partition 200 (plainFile "b.py" 250) (by decide) (by decide)).2.2.2.2.2⟩

/-! ## Job Ledger claim theorem -/

theorem job_trace_classification (rest : List JobStatus)
    (h : validTrace (.pending :: rest) = true) :
    rest = [] ∨ rest = [.processing] ∨
      rest = [.processing, .completed] ∨ rest = [.processing, .failed] := by
  match rest with
  | [] => exact Or.inl rfl
  | [t] =>
    cases t <;> simp [validTrace, jobStep] at h ⊢
  | t :: u :: r =>
    cases t <;> simp [validTrace, jobStep] at h
    cases u <;> simp [jobStep] at h
    all_goals
      cases r with
      | nil => simp [validTrace] at h ⊢
      | cons v r' => cases v <;> simp [validTrace, jobStep] at h

/-- C5: every valid job history starting at `pending` follows
`pending → processing → {completed | failed}` (it is one of the four
prefixes of those runs), and the terminal states are sticky — no transition
leaves `completed` or `failed` (in particular never
`completed → processing`). -/
theorem job_ledger_state_machine :
    (∀ rest : List JobStatus, validTrace (.pending :: rest) = true →
        rest = [] ∨ rest = [.processing] ∨
          rest = [.processing, .completed] ∨ rest = [.processing, .failed]) ∧
      (∀ t : JobStatus, jobStep .completed t = false ∧ jobStep .failed t = false) := by
  constructor
  · exact job_trace_classification
  · intro t
    cases t <;> exact ⟨rfl, rfl⟩

/-- C5 witness: the full run `pending, processing, completed` is classified
by the state machine, and `completed → processing` is rejected. -/
theorem job_ledger_state_machine_witness :
    ([JobStatus.processing, .completed] = [] ∨
        [JobStatus.processing, .completed] = [.processing] ∨
        [JobStatus.processing, .completed] = [.processing, .completed] ∨
        [JobStatus.processing, .completed] = [.processing, .failed]) ∧
      jobStep .completed .processing = false ∧ jobStep .failed .processing = false :=
  ⟨job_ledger_state_machine.1 [.processing, .completed] rfl,
    job_ledger_state_machine.2 .processing⟩

/-! ## Dispatcher claim theorem -/

/-- C7: a failed unit never aborts the dispatch run — the final status is
`completed` whenever at least one unit succeeded, `failed` exactly when all
units failed; and in the 15-unit scenario (5 chunks × 3 variants, 2 units
retried out, 13 succeeding) the status is `completed` and the message lists
exactly the 2 degraded units. -/
theorem dispatch_degraded_units (retries : Nat) (units : List DispatchUnit) :
    ((∃ u ∈ units, unitSucceeds retries u = true) →
        dispatchStatus retries units = .completed) ∧
      (dispatchStatus retries units = .failed ↔
        ∀ u ∈ units, unitSucceeds retries u = false) ∧
      (dispatchStatus 2 demoUnits = .completed ∧
        dispatchMessage 2 demoUnits =
          some ["chunk1/security_agent", "chunk3/optimization_agent"]) := by
  refine ⟨?_, ?_, by decide, by decide⟩
  · intro h
    have : units.any (unitSucceeds retries) = true := by
      rw [List.any_eq_true]
      rcases h with ⟨u, hu, hs⟩
      exact ⟨u, hu, hs⟩
    simp [dispatchStatus, this]
  · constructor
    · intro h
      intro u hu
      by_contra hne
      have hs : unitSucceeds retries u = true := by
        cases hval : unitSucceeds retries u
        · exact absurd hval hne
        · rfl
      have hany : units.any (unitSucceeds retries) = true := by
        rw [List.any_eq_true]
        exact ⟨u, hu, hs⟩
      simp [dispatchStatus, hany] at h
    · intro h
      have hany : units.any (unitSucceeds retries) = false := by
        rw [List.any_eq_false]
        intro u hu
        simp [h u hu]
      simp [dispatchStatus, hany]

/-- C7 witness: the scenario dispatch — one succeeding unit exists, the run
completes, and the message lists the two degraded units. -/
theorem dispatch_degraded_units_witness :
    dispatchStatus 2 demoUnits = .completed ∧
      dispatchMessage 2 demoUnits =
        some ["chunk1/security_agent", "chunk3/optimization_agent"] ∧
      dispatchStatus 2 demoUnits = .completed :=
  ⟨(dispatch_degraded_units 2 demoUnits).2.2.1,
    (dispatch_degraded_units 2 demoUnits).2.2.2,
    (dispatch_degraded_units 2 demoUnits).1
      ⟨demoUnit "chunk1" "code_analyzer",
        by simp [demoUnits, chunkNames, variantNames], by decide⟩⟩

/-! ## Patch apply claim theorem -/

theorem stageAll_eq_none (writeOk : String → Bool) :
    ∀ patches : List (String × String),
      (∃ p ∈ patches, writeOk p.1 = false) → stageAll writeOk patches = none := by
  intro patches h
  induction patches with
  | nil => simp at h
  | cons p ps ih =>
    rcases h with ⟨q, hq, hfail⟩
    rcases List.mem_cons.mp hq with hq | hq
    · subst hq
      simp [stageAll, hfail]
    · by_cases hw : writeOk p.1
      · simp [stageAll, hw, ih ⟨q, hq, hfail⟩]
      · simp [stageAll, hw]

/-- C6: patch apply is all-or-nothing — if writing any file of the batch
fails, the invocation reports failure and every path of the working copy
keeps its pre-apply content (no partial application). -/
theorem apply_all_or_nothing (workingCopy : String → String) (writeOk : String → Bool)
    (patches : List (String × String))
    (h : ∃ p ∈ patches, writeOk p.1 = false) :
    (applyPatches workingCopy writeOk patches).1 = false ∧
      ∀ path, (applyPatches workingCopy writeOk patches).2 path = workingCopy path := by
  have hstage : stageAll writeOk patches = none := stageAll_eq_none writeOk patches h
  constructor
  · simp [applyPatches, hstage]
  · intro path
    simp [applyPatches, hstage]

/-- C6 witness: in the two-file scenario the write to `b.py` fails, the
batch reports failure, and both files keep their pre-apply content. -/
theorem apply_all_or_nothing_witness :
    (applyPatches demoWorkingCopy demoWriteOk demoPatches).1 = false ∧
      (applyPatches demoWorkingCopy demoWriteOk demoPatches).2 "a.py" =
        demoWorkingCopy "a.py" ∧
      (applyPatches demoWorkingCopy demoWriteOk demoPatches).2 "b.py" =
        demoWorkingCopy "b.py" :=
  ⟨(apply_all_or_nothing demoWorkingCopy demoWriteOk demoPatches
      ⟨("b.py", "new b"), by decide, by decide⟩).1,
    (apply_all_or_nothing demoWorkingCopy demoWriteOk demoPatches
      ⟨("b.py", "new b"), by decide, by decide⟩).2 "a.py",
    (apply_all_or_nothing demoWorkingCopy demoWriteOk demoPatches
      ⟨("b.py", "new b"), by decide, by decide⟩).2 "b.py"⟩

/-! ## Patch round-trip lemmas and claim theorem -/

theorem numberDiff_strip :
    ∀ (d : List (DiffType × String)) (oldN newN : Nat),
      (numberDiff oldN newN d).map (fun e => (e.type, e.content)) = d := by
  intro d
  induction d with
  | nil => intro oldN newN; rfl
  | cons e rest ih =>
    intro oldN newN
    rcases e with ⟨t, s⟩
    cases t <;> simp [numberDiff, ih]

theorem lcsFuel_sublist_left :
    ∀ (fuel : Nat) (as bs : List String), (lcsFuel fuel as bs).Sublist as := by
  intro fuel
  induction fuel with
  | zero => intro as bs; simp [lcsFuel]
  | succ fuel ih =>
    intro as bs
    match as, bs with
    | [], _ => simp [lcsFuel]
    | _ :: _, [] => simp [lcsFuel]
    | a :: as, b :: bs =>
      rw [lcsFuel]
      by_cases hab : a = b
      · rw [if_pos hab]
        exact List.Sublist.cons₂ a (ih as bs)
      · rw [if_neg hab]
        show (if (lcsFuel fuel (a :: as) bs).length < (lcsFuel fuel as (b :: bs)).length
          then lcsFuel fuel as (b :: bs) else lcsFuel fuel (a :: as) bs).Sublist (a :: as)
        split
        · exact List.Sublist.cons a (ih as (b :: bs))
        · exact ih (a :: as) bs

theorem lcsFuel_sublist_right :
    ∀ (fuel : Nat) (as bs : List String), (lcsFuel fuel as bs).Sublist bs := by
  intro fuel
  induction fuel with
  | zero => intro as bs; simp [lcsFuel]
  | succ fuel ih =>
    intro as bs
    match as, bs with
    | [], _ => simp [lcsFuel]
    | _ :: _, [] => simp [lcsFuel]
    | a :: as, b :: bs =>
      rw [lcsFuel]
      by_cases hab : a = b
      · rw [if_pos hab]
        subst hab
        exact List.Sublist.cons₂ a (ih as bs)
      · rw [if_neg hab]
        show (if (lcsFuel fuel (a :: as) bs).length < (lcsFuel fuel as (b :: bs)).length
          then lcsFuel fuel as (b :: bs) else lcsFuel fuel (a :: as) bs).Sublist (b :: bs)
        split
        · exact ih as (b :: bs)
        · exact List.Sublist.cons b (ih (a :: as) bs)

theorem applyCore_removed_run :
    ∀ (original : List String) (rest : List (DiffType × String)),
      applyCore original (original.map (fun l => (DiffType.removed, l)) ++ rest) =
        applyCore [] rest := by
  intro original
  induction original with
  | nil => intro rest; rfl
  | cons o os ih => intro rest; simp [applyCore, ih]

theorem applyCore_added_only :
    ∀ modified : List String,
      applyCore [] (modified.map (fun l => (DiffType.added, l))) = modified := by
  intro modified
  induction modified with
  | nil => rfl
  | cons m ms ih => simp [applyCore, ih]

theorem applyCore_diffCore :
    ∀ (fuel : Nat) (original modified cs : List String),
      cs.Sublist original → cs.Sublist modified →
      original.length + modified.length ≤ fuel →
      applyCore original (diffCore fuel original modified cs) = modified := by
  intro fuel
  induction fuel with
  | zero =>
    intro original modified cs h1 h2 hf
    have ho : original = [] := List.length_eq_zero.mp (by omega)
    have hm : modified = [] := List.length_eq_zero.mp (by omega)
    subst ho; subst hm
    rfl
  | succ fuel ih =>
    intro original modified cs h1 h2 hf
    match original, modified, cs with
    | original, modified, [] =>
      rw [diffCore, applyCore_removed_run, applyCore_added_only]
    | [], modified, c :: cs =>
      simp at h1
    | o :: os, [], c :: cs =>
      simp at h2
    | o :: os, m :: ms, c :: cs =>
      rw [diffCore]
      by_cases ho : o = c
      · rw [if_pos ho]
        by_cases hm : m = c
        · rw [if_pos hm]
          have h1' : cs.Sublist os := by
            cases h1 with
            | cons _ h => exact (List.sublist_cons_self c cs).trans h
            | cons₂ _ h => exact h
          have h2' : cs.Sublist ms := by
            cases h2 with
            | cons _ h => exact (List.sublist_cons_self c cs).trans h
            | cons₂ _ h => exact h
          have := ih os ms cs h1' h2' (by simp at hf; omega)
          simp [applyCore, this, ho, hm]
        · rw [if_neg hm]
          have h2' : (c :: cs).Sublist ms := by
            cases h2 with
            | cons _ h => exact h
            | cons₂ _ h => exact absurd rfl hm
          have := ih (o :: os) ms (c :: cs) h1 h2' (by simp at hf ⊢; omega)
          simp [applyCore, this]
      · rw [if_neg ho]
        have h1' : (c :: cs).Sublist os := by
          cases h1 with
          | cons _ h => exact h
          | cons₂ _ h => exact absurd rfl ho
        have := ih os (m :: ms) (c :: cs) h1' h2 (by simp at hf ⊢; omega)
        simp [applyCore, this]

/-- C4: the Patch round-trip law — for every Patch produced by the Patch
Engine, applying the edits described by its `line_diff` sequence (added,
removed and unchanged entries, in order) to `original_text` reconstructs
`modified_text` exactly. -/
theorem patch_line_diff_roundtrip (path : String) (original modified : List String) :
    applyLineDiff (generatePatch path original modified).original_text
        (generatePatch path original modified).line_diff =
      (generatePatch path original modified).modified_text := by
  show applyLineDiff original (computeLineDiff original modified) = modified
  rw [applyLineDiff, computeLineDiff, numberDiff_strip]
  exact applyCore_diffCore (original.length + modified.length) original modified
    (lcsLines original modified)
    (lcsFuel_sublist_left (original.length + modified.length) original modified)
    (lcsFuel_sublist_right (original.length + modified.length) original modified)
    (Nat.le_refl _)

/-! ## Client claim theorems -/

/-- C9: after a fetched status of `pending` or `processing` the client hook
schedules exactly one further status fetch, 5000 ms later; after any other
status value (such as `completed` or `failed`) it schedules none. -/
theorem useReviewStatus_polling (status : String) :
    ((status = "pending" ∨ status = "processing") → pollDelayAfter status = some 5000) ∧
      (status ≠ "pending" → status ≠ "processing" → pollDelayAfter status = none) ∧
      pollDelayAfter "completed" = none ∧ pollDelayAfter "failed" = none := by
  refine ⟨?_, ?_, by decide, by decide⟩
  · rintro (h | h) <;> subst h <;> decide
  · intro h1 h2
    have h1' : (status == "pending") = false := beq_eq_false_iff_ne.mpr h1
    have h2' : (status == "processing") = false := beq_eq_false_iff_ne.mpr h2
    simp [pollDelayAfter, bne, h1', h2']

/-- C9 witness: a fetched `processing` schedules one fetch after 5000 ms,
and a fetched `completed` schedules none. -/
theorem useReviewStatus_polling_witness :
    pollDelayAfter "processing" = some 5000 ∧ pollDelayAfter "completed" = none :=
  ⟨(useReviewStatus_polling "processing").1 (Or.inr rfl),
    (useReviewStatus_polling "completed").2.1 (by decide) (by decide)⟩

/-- C10: every client-initiated review posts to `/review/` a body holding
only the `repo_id` field — the optional `files` and `agents` parameters of
the API contract are never sent. -/
theorem startReview_body_only_repo_id (repoId : String) :
    (startReviewBody repoId).map Prod.fst = ["repo_id"] ∧
      "files" ∉ (startReviewBody repoId).map Prod.fst ∧
      "agents" ∉ (startReviewBody repoId).map Prod.fst ∧
      startReviewPath = "/review/" := by
  refine ⟨rfl, ?_, ?_, rfl⟩ <;>
    · intro h
      simp only [startReviewBody, List.map_cons, List.map_nil, List.mem_singleton] at h
      exact absurd h (by decide)
